import Mathlib

set_option autoImplicit false

/-!
Verification development for the goproxy command front-end
(cmd/goproxy/main.go): the request pipeline (prefix stripping and
fetch-deadline middleware), the file-URL resolver (httpDirFS.Open), and
the server assembly (TLS-mode selection and serve-error reporting).
Go byte strings are modelled as lists of characters.
-/

namespace Goproxy

/-- Go strings, modelled byte-for-byte as lists of characters. -/
abbrev Str := List Char

/-- Model of strings.HasPrefix s p (renamed to fit local naming rules). -/
def hasPfx : Str → Str → Bool
  | _, [] => true
  | [], _ :: _ => false
  | a :: s, b :: p => a == b && hasPfx s p

/-- Model of strings.TrimPrefix s p: s without the leading occurrence of p. -/
def trimPfx (s p : Str) : Str :=
  if hasPfx s p then s.drop p.length else s

/-- Go contexts: context.Background and context.WithTimeout(parent, d).
The parent field records which context a bounded context was derived from. -/
inductive Ctx
  | background : Ctx
  | withTimeout (parent : Ctx) (d : Int) : Ctx
deriving DecidableEq, Repr

/-- An inbound HTTP request: its URL path (URL.RawPath assumed empty, the
usual case for unescaped module paths) and its context. -/
structure Request where
  path : Str
  ctx : Ctx
deriving DecidableEq, Repr

/-- What the pipeline writes back: http.NotFound, or the engine response
(parameterised by the path and context the engine observed). -/
inductive Response
  | notFound
  | engine (path : Str) (ctx : Ctx)
deriving DecidableEq, Repr

/-- Observable events of one request moving through the composed pipeline,
in execution order. -/
inductive Event
  | deadlineCreated (d : Int)
  | stripChecked
  | stripRejected
  | engineInvoked (path : Str) (ctx : Ctx)
  | cancelCalled
deriving DecidableEq, Repr

/-- A handler maps a request to the event trace it produces and its response. -/
def Handler := Request → List Event × Response

/-- The goproxy engine handler g (external collaborator, line 42-49 of
main.go): records the path and context it is invoked with. -/
def goproxyHandler : Handler := fun req =>
  ([Event.engineInvoked req.path req.ctx], Response.engine req.path req.ctx)

/-- Model of http.StripPrefix(pfx, h) for requests whose URL.RawPath is
empty: if pfx is empty, the handler is returned unchanged; otherwise the
path is trimmed, and when the trim shortened it the inner handler runs on
the trimmed path, else http.NotFound is written and h is never invoked. -/
def stripPfxMW (pfx : Str) (h : Handler) : Handler :=
  if pfx = [] then h
  else fun req =>
    let p := trimPfx req.path pfx
    if p.length < req.path.length then
      let r := h { req with path := p }
      (Event.stripChecked :: r.1, r.2)
    else
      ([Event.stripChecked, Event.stripRejected], Response.notFound)

/-- Model of the fetch-timeout middleware of main.go lines 54-62:
derive a context bound to d from the request context, run the inner
handler under it, then call cancel. -/
def withFetchTimeout (d : Int) (h : Handler) : Handler := fun req =>
  let r := h { req with ctx := Ctx.withTimeout req.ctx d }
  (Event.deadlineCreated d :: (r.1 ++ [Event.cancelCalled]), r.2)

/-- The composed pipeline of main.go lines 50-62: start from the engine
handler, wrap it in StripPrefix when a path prefix is configured, then
wrap that in the fetch-timeout middleware when the timeout is positive. -/
def buildHandler (pfx : Str) (fetchTimeout : Int) : Handler :=
  let handler := goproxyHandler
  let handler := if pfx ≠ [] then stripPfxMW pfx handler else handler
  if fetchTimeout > 0 then withFetchTimeout fetchTimeout handler else handler

/-- True of the events emitted by the prefix-stripping stage. -/
def isStripEvent : Event → Bool
  | Event.stripChecked => true
  | Event.stripRejected => true
  | _ => false

/-- True of the event emitted when the deadline context is created. -/
def isDeadlineEvent : Event → Bool
  | Event.deadlineCreated _ => true
  | _ => false

/-- True of the event recording an invocation of the engine handler. -/
def isEngineEvent : Event → Bool
  | Event.engineInvoked _ _ => true
  | _ => false

/-- Index of the first event satisfying p, if any. -/
def firstIdx (p : Event → Bool) : List Event → Option Nat
  | [] => none
  | e :: tr => if p e then some 0 else (firstIdx p tr).map (· + 1)

/-- The ordering property claimed by the spec for one trace: whenever both
a strip-stage event and a deadline-creation event occur, the first strip
event comes strictly before the first deadline event. -/
def stripPrecedesDeadline (tr : List Event) : Bool :=
  match firstIdx isStripEvent tr, firstIdx isDeadlineEvent tr with
  | some i, some j => decide (i < j)
  | _, _ => true

/-! ### The file-URL resolver httpDirFS.Open -/

/-- The two platform families, distinguished by filepath.Separator. -/
inductive GoOS
  | windows
  | unix
deriving DecidableEq, Repr

/-- filepath.Separator on each platform family. -/
def separator : GoOS → Char
  | GoOS.windows => '\\'
  | GoOS.unix => '/'

/-- filepath.FromSlash: replace each slash by the native separator (the
identity when the separator is the slash itself). -/
def fromSlash (os : GoOS) (s : Str) : Str :=
  if separator os = '/' then s
  else s.map (fun c => if c = '/' then separator os else c)

/-- isSlash of path/filepath (Windows build): a byte is a path separator
when it is a backslash or a slash. -/
def isSlash (c : Char) : Bool := c == '\\' || c == '/'

/-- Index of the first separator byte, or the length when there is none:
the scanning loops inside the Windows volumeNameLen. -/
def findSlashIdx : Str → Nat
  | [] => 0
  | c :: r => if isSlash c then 0 else findSlashIdx r + 1

/-- The UNC arm of the Windows volumeNameLen: locate the separator that
ends the server name (it must lie strictly before the last byte); the
share name must then begin with a byte that is neither a separator nor a
dot, and the volume extends to the next separator or the end. -/
def uncVolumeLen (path : Str) : Nat :=
  let l := path.length
  let n := 3 + findSlashIdx (path.drop 3)
  if n < l - 1 then
    let m := n + 1
    let c := path.getD m ' '
    if isSlash c then 0
    else if c == '.' then 0
    else m + findSlashIdx (path.drop m)
  else 0

/-- The Windows volumeNameLen of path/filepath: 2 for a drive-letter
volume, the server-and-share length for a UNC volume, 0 otherwise. -/
def volumeNameLen (path : Str) : Nat :=
  if path.length < 2 then 0
  else
    let c := path.getD 0 ' '
    if path.getD 1 ' ' == ':'
        && ((decide ('a' ≤ c) && decide (c ≤ 'z'))
            || (decide ('A' ≤ c) && decide (c ≤ 'Z'))) then 2
    else if decide (5 ≤ path.length) && isSlash (path.getD 0 ' ')
        && isSlash (path.getD 1 ' ') && !isSlash (path.getD 2 ' ')
        && !(path.getD 2 ' ' == '.') then
      uncVolumeLen path
    else 0

/-- filepath.VolumeName: the leading volume name of a Windows path. -/
def volumeName (path : Str) : Str := path.take (volumeNameLen path)

/-- ASCII upper-casing; adequate for comparisons against the reserved
device names, which are all ASCII. -/
def toUpperAscii (c : Char) : Char :=
  if decide ('a' ≤ c) && decide (c ≤ 'z') then Char.ofNat (c.toNat - 32)
  else c

/-- Model of strings.EqualFold as ASCII case folding, exact for the
reserved-name comparisons below. -/
def equalFold (s t : Str) : Bool :=
  s.map toUpperAscii == t.map toUpperAscii

/-- The Windows reserved device names of path/filepath. -/
def reservedNames : List Str :=
  ["CON", "PRN", "AUX", "NUL",
   "COM1", "COM2", "COM3", "COM4", "COM5", "COM6", "COM7", "COM8", "COM9",
   "LPT1", "LPT2", "LPT3", "LPT4", "LPT5", "LPT6", "LPT7", "LPT8",
   "LPT9"].map String.data

/-- isReservedName of path/filepath (Windows build). -/
def isReservedName (path : Str) : Bool :=
  if path.isEmpty then false
  else reservedNames.any (fun r => equalFold path r)

/-- filepath.IsAbs on Windows: reserved names are absolute; otherwise
the path needs a volume name followed by a separator byte. -/
def windowsIsAbs (path : Str) : Bool :=
  if isReservedName path then true
  else
    let l := volumeNameLen path
    if l == 0 then false
    else
      let rest := path.drop l
      if rest.isEmpty then false
      else isSlash (rest.getD 0 ' ')

/-- filepath.IsAbs per platform; on slash-separator platforms a path is
absolute exactly when it starts with a slash. -/
def isAbs : GoOS → Str → Bool
  | GoOS.windows, path => windowsIsAbs path
  | GoOS.unix, path => hasPfx path "/".data

/-- The observable outcome of httpDirFS.Open: a runtime slice-bounds
violation, an errors.New value, the error propagated from os.Open, or
the handle os.Open returned. -/
inductive OpenResult
  | sliceOutOfRange
  | invalidPath (msg : String)
  | fsError (e : String)
  | ok (f : String)
deriving DecidableEq, Repr

/-- The shared tail of httpDirFS.Open (main.go lines 88-91): reject a
non-absolute path, otherwise return exactly what os.Open (modelled by
the fs argument) returns for it. -/
def openTail (os : GoOS) (fs : Str → Except String String) (name : Str) :
    OpenResult :=
  if !(isAbs os name) then OpenResult.invalidPath "path is not absolute"
  else
    match fs name with
    | Except.ok f => OpenResult.ok f
    | Except.error e => OpenResult.fsError e

/-- httpDirFS.Open (main.go lines 81-92): convert separators; on the
backslash-separator platform slice off the first byte (a slice-bounds
violation when the name is empty) and require a volume name that is
neither empty nor UNC-style; finally require an absolute path and open
it. -/
def fsOpen (os : GoOS) (fs : Str → Except String String) (name : Str) :
    OpenResult :=
  let n1 := fromSlash os name
  if separator os == '\\' then
    if n1.isEmpty then OpenResult.sliceOutOfRange
    else
      let n2 := n1.drop 1
      let vn := volumeName n2
      if vn.isEmpty || hasPfx vn "\\\\".data then
        OpenResult.invalidPath "file URL missing drive letter"
      else openTail os fs n2
  else openTail os fs n1

/-- The separator-translated (and, on Windows, first-byte-stripped) path
that httpDirFS.Open validates and finally opens. -/
def translated (os : GoOS) (name : Str) : Str :=
  match os with
  | GoOS.windows => (fromSlash os name).drop 1
  | GoOS.unix => fromSlash os name

/-! ### Server assembly -/

/-- The serving mode main selects (main.go lines 66-70). -/
inductive ServeMode
  | tls
  | plain
deriving DecidableEq, Repr

/-- TLS is chosen exactly when both the certificate path and the key
path are non-empty, the condition of main.go line 67. -/
def serveMode (tlsCertFile tlsKeyFile : Str) : ServeMode :=
  if !tlsCertFile.isEmpty && !tlsKeyFile.isEmpty then ServeMode.tls
  else ServeMode.plain

/-- Errors the serve loop can return: http.ErrServerClosed on
intentional shutdown, or any other error value. -/
inductive GoError
  | errServerClosed
  | other (msg : String)
deriving DecidableEq, Repr

/-- errors.Is(err, http.ErrServerClosed) over our error values. -/
def errorsIsServerClosed : Option GoError → Bool
  | some GoError.errServerClosed => true
  | _ => false

/-- Operator-visible actions of main around the serve loop. -/
inductive Action
  | serveAttempt (m : ServeMode)
  | logError (e : GoError)
deriving DecidableEq, Repr

/-- main.go lines 71-74: after the serve loop returns, a nil error or an
intentional shutdown is not reported; any other error is logged once,
and main returns either way. -/
def afterServe (err : Option GoError) : List Action :=
  match err with
  | none => []
  | some e =>
      if errorsIsServerClosed (some e) then []
      else [Action.logError e]

/-- The serve phase of main: choose the mode, run the serve loop once
(its outcome supplied by the environment as serveResult), then the error
check; there is no retry or restart loop. -/
def runServer (tlsCertFile tlsKeyFile : Str)
    (serveResult : ServeMode → Option GoError) : List Action :=
  let mode := serveMode tlsCertFile tlsKeyFile
  Action.serveAttempt mode :: afterServe (serveResult mode)

/-- True of serve-attempt actions. -/
def isServeAttempt : Action → Bool
  | Action.serveAttempt _ => true
  | _ => false

/-! ### Basic lemmas about the string model -/

theorem hasPfx_iff (s p : Str) : hasPfx s p = true ↔ ∃ t, s = p ++ t := by
  induction p generalizing s with
  | nil =>
    simp only [List.nil_append]
    constructor
    · intro _; exact ⟨s, rfl⟩
    · intro _; cases s <;> rfl
  | cons b p ih =>
    cases s with
    | nil =>
      simp only [hasPfx]
      constructor
      · intro h; exact absurd h (by simp)
      · rintro ⟨t, ht⟩; exact absurd ht (by simp)
    | cons a s =>
      simp only [hasPfx, Bool.and_eq_true, beq_iff_eq, ih, List.cons_append,
        List.cons.injEq]
      constructor
      · rintro ⟨rfl, t, rfl⟩; exact ⟨t, rfl, rfl⟩
      · rintro ⟨t, rfl, rfl⟩; exact ⟨rfl, t, rfl⟩

theorem drop_len_append (p t : Str) : (p ++ t).drop p.length = t := by
  induction p with
  | nil => simp
  | cons a p ih => simp [ih]

theorem trimPfx_length_lt (s p : Str) (hp : p ≠ []) :
    (trimPfx s p).length < s.length ↔ hasPfx s p = true := by
  cases h : hasPfx s p with
  | false => simp [trimPfx, h]
  | true =>
    obtain ⟨t, rfl⟩ := (hasPfx_iff _ _).mp h
    simp only [trimPfx, h, if_true, drop_len_append, List.length_append, iff_true]
    have hl : 0 < p.length := List.length_pos.mpr hp
    omega

theorem trimPfx_of_hasPfx (s p : Str) (h : hasPfx s p = true) :
    p ++ trimPfx s p = s := by
  obtain ⟨t, rfl⟩ := (hasPfx_iff _ _).mp h
  simp only [trimPfx, h, if_true, drop_len_append]

/-! ### Characterisation of the middleware stages -/

theorem stripPfxMW_reject (pfx : Str) (h : Handler) (req : Request)
    (hp : pfx ≠ []) (hnm : hasPfx req.path pfx = false) :
    stripPfxMW pfx h req
      = ([Event.stripChecked, Event.stripRejected], Response.notFound) := by
  have hlt : ¬ (trimPfx req.path pfx).length < req.path.length := by
    rw [trimPfx_length_lt _ _ hp]
    simp [hnm]
  simp [stripPfxMW, hp, hlt]

theorem stripPfxMW_match (pfx : Str) (h : Handler) (req : Request)
    (hp : pfx ≠ []) (hm : hasPfx req.path pfx = true) :
    stripPfxMW pfx h req
      = (Event.stripChecked
           :: (h { req with path := req.path.drop pfx.length }).1,
         (h { req with path := req.path.drop pfx.length }).2) := by
  have hlt : (trimPfx req.path pfx).length < req.path.length :=
    (trimPfx_length_lt _ _ hp).mpr hm
  have htr : trimPfx req.path pfx = req.path.drop pfx.length := by
    simp only [trimPfx, hm, if_true]
  have hlt2 : (req.path.drop pfx.length).length < req.path.length := htr ▸ hlt
  have hne : req.path ≠ [] := by
    intro h0
    rw [h0] at hlt2
    simp at hlt2
  simp [stripPfxMW, hp, htr, hlt2, hne]

theorem buildHandler_pos (pfx : Str) (t : Int) (req : Request)
    (hp : pfx ≠ []) (ht : 0 < t) :
    buildHandler pfx t req
      = (Event.deadlineCreated t
           :: ((stripPfxMW pfx goproxyHandler
                  { req with ctx := Ctx.withTimeout req.ctx t }).1
               ++ [Event.cancelCalled]),
         (stripPfxMW pfx goproxyHandler
            { req with ctx := Ctx.withTimeout req.ctx t }).2) := by
  simp [buildHandler, hp, gt_iff_lt, ht, withFetchTimeout]

theorem buildHandler_nonpos (pfx : Str) (t : Int) (req : Request)
    (hp : pfx ≠ []) (ht : ¬ 0 < t) :
    buildHandler pfx t req = stripPfxMW pfx goproxyHandler req := by
  simp [buildHandler, hp, gt_iff_lt, ht]

theorem buildHandler_nopfx_pos (t : Int) (req : Request) (ht : 0 < t) :
    buildHandler [] t req
      = (Event.deadlineCreated t
           :: ((goproxyHandler { req with ctx := Ctx.withTimeout req.ctx t }).1
               ++ [Event.cancelCalled]),
         (goproxyHandler { req with ctx := Ctx.withTimeout req.ctx t }).2) := by
  simp [buildHandler, gt_iff_lt, ht, withFetchTimeout]

theorem buildHandler_nopfx_nonpos (t : Int) (req : Request) (ht : ¬ 0 < t) :
    buildHandler [] t req = goproxyHandler req := by
  simp [buildHandler, gt_iff_lt, ht]

/-! ### Claims about the request pipeline -/

/-- Claim C1, counterexample to the claim as stated: with path prefix
"/p" and fetch timeout 1 configured, the request "/x" is rejected by the
strip stage, yet the deadline context was created first (the first strip
event does not strictly precede the first deadline event), and the
rejected request did consume a deadline context. -/
theorem strip_order_claim_cex :
    stripPrecedesDeadline
        ((buildHandler "/p".data 1) ⟨"/x".data, Ctx.background⟩).1 = false
    ∧ ((buildHandler "/p".data 1) ⟨"/x".data, Ctx.background⟩).2
        = Response.notFound
    ∧ Event.deadlineCreated 1
        ∈ ((buildHandler "/p".data 1) ⟨"/x".data, Ctx.background⟩).1 := by
  decide

/-- Claim C1, amended: when a non-empty path prefix and a positive fetch
timeout are both configured, the deadline stage wraps the strip stage, so
within one request the deadline context is created strictly before prefix
stripping runs; a request rejected by the strip stage therefore still has
a deadline context created (and cancelled) on its behalf. -/
theorem deadline_setup_precedes_strip (pfx : Str) (t : Int) (req : Request)
    (hp : pfx ≠ []) (ht : 0 < t) :
    (∃ rest, (buildHandler pfx t req).1
        = Event.deadlineCreated t :: Event.stripChecked :: rest)
    ∧ stripPrecedesDeadline (buildHandler pfx t req).1 = false
    ∧ (hasPfx req.path pfx = false →
        (buildHandler pfx t req).2 = Response.notFound
        ∧ Event.deadlineCreated t ∈ (buildHandler pfx t req).1
        ∧ Event.cancelCalled ∈ (buildHandler pfx t req).1) := by
  rw [buildHandler_pos pfx t req hp ht]
  cases hm : hasPfx req.path pfx with
  | false =>
    rw [stripPfxMW_reject pfx goproxyHandler
      { req with ctx := Ctx.withTimeout req.ctx t } hp hm]
    refine ⟨⟨[Event.stripRejected, Event.cancelCalled], by simp⟩, ?_, ?_⟩
    · simp [stripPrecedesDeadline, firstIdx, isStripEvent, isDeadlineEvent]
    · intro _
      refine ⟨rfl, by simp, by simp⟩
  | true =>
    rw [stripPfxMW_match pfx goproxyHandler
      { req with ctx := Ctx.withTimeout req.ctx t } hp hm]
    refine ⟨⟨[Event.engineInvoked (req.path.drop pfx.length)
        (Ctx.withTimeout req.ctx t), Event.cancelCalled],
      by simp [goproxyHandler]⟩, ?_, ?_⟩
    · simp [stripPrecedesDeadline, firstIdx, isStripEvent, isDeadlineEvent,
        goproxyHandler]
    · intro hfalse
      exact absurd hfalse (by simp)

/-- Claim C1 witness: the amended ordering at prefix "/p", timeout 7 and
request path "/p/m". -/
theorem deadline_setup_precedes_strip_w :
    (∃ rest, (buildHandler "/p".data 7 ⟨"/p/m".data, Ctx.background⟩).1
        = Event.deadlineCreated 7 :: Event.stripChecked :: rest)
    ∧ stripPrecedesDeadline
        (buildHandler "/p".data 7 ⟨"/p/m".data, Ctx.background⟩).1 = false
    ∧ (hasPfx "/p/m".data "/p".data = false →
        (buildHandler "/p".data 7 ⟨"/p/m".data, Ctx.background⟩).2
          = Response.notFound
        ∧ Event.deadlineCreated 7
            ∈ (buildHandler "/p".data 7 ⟨"/p/m".data, Ctx.background⟩).1
        ∧ Event.cancelCalled
            ∈ (buildHandler "/p".data 7 ⟨"/p/m".data, Ctx.background⟩).1) :=
  deadline_setup_precedes_strip "/p".data 7 ⟨"/p/m".data, Ctx.background⟩
    (by decide) (by decide)

/-- Claim C2: with a non-empty prefix configured, a request whose path
does not start with the prefix gets a not-found response and the engine
handler is never invoked, whatever the fetch timeout is. -/
theorem nonmatching_path_rejected (pfx : Str) (t : Int) (path : Str) (c : Ctx)
    (hp : pfx ≠ []) (hnm : hasPfx path pfx = false) :
    (buildHandler pfx t ⟨path, c⟩).2 = Response.notFound
    ∧ ∀ e ∈ (buildHandler pfx t ⟨path, c⟩).1, isEngineEvent e = false := by
  by_cases ht : 0 < t
  · rw [buildHandler_pos pfx t _ hp ht,
      stripPfxMW_reject pfx goproxyHandler _ hp hnm]
    refine ⟨rfl, ?_⟩
    intro e he
    simp only [List.cons_append, List.nil_append, List.mem_cons,
      List.not_mem_nil, or_false] at he
    rcases he with rfl | rfl | rfl | rfl <;> rfl
  · rw [buildHandler_nonpos pfx t _ hp ht,
      stripPfxMW_reject pfx goproxyHandler _ hp hnm]
    refine ⟨rfl, ?_⟩
    intro e he
    simp only [List.mem_cons, List.not_mem_nil, or_false] at he
    rcases he with rfl | rfl <;> rfl

/-- Claim C2 witness: prefix "/mod", timeout 2, non-matching path
"/other". -/
theorem nonmatching_path_rejected_w :
    (buildHandler "/mod".data 2 ⟨"/other".data, Ctx.background⟩).2
      = Response.notFound
    ∧ ∀ e ∈ (buildHandler "/mod".data 2 ⟨"/other".data, Ctx.background⟩).1,
        isEngineEvent e = false :=
  nonmatching_path_rejected "/mod".data 2 "/other".data Ctx.background
    (by decide) (by decide)

/-- Claim C3: with a non-empty prefix configured, a request whose path
starts with the prefix reaches the engine with exactly one leading
occurrence of the prefix removed and the rest of the path unchanged:
the engine observes a path rest with pfx ++ rest = path. -/
theorem matching_path_stripped_once (pfx : Str) (t : Int) (path : Str) (c : Ctx)
    (hp : pfx ≠ []) (hm : hasPfx path pfx = true) :
    ∃ rest c2,
      pfx ++ rest = path
      ∧ Event.engineInvoked rest c2 ∈ (buildHandler pfx t ⟨path, c⟩).1
      ∧ (buildHandler pfx t ⟨path, c⟩).2 = Response.engine rest c2 := by
  have htr : trimPfx path pfx = path.drop pfx.length := by
    simp only [trimPfx, hm, if_true]
  have hrest : pfx ++ path.drop pfx.length = path :=
    htr ▸ trimPfx_of_hasPfx path pfx hm
  by_cases ht : 0 < t
  · refine ⟨path.drop pfx.length, Ctx.withTimeout c t, hrest, ?_, ?_⟩
    · rw [buildHandler_pos pfx t _ hp ht,
        stripPfxMW_match pfx goproxyHandler _ hp hm]
      simp [goproxyHandler]
    · rw [buildHandler_pos pfx t _ hp ht,
        stripPfxMW_match pfx goproxyHandler _ hp hm]
      rfl
  · refine ⟨path.drop pfx.length, c, hrest, ?_, ?_⟩
    · rw [buildHandler_nonpos pfx t _ hp ht,
        stripPfxMW_match pfx goproxyHandler _ hp hm]
      simp [goproxyHandler]
    · rw [buildHandler_nonpos pfx t _ hp ht,
        stripPfxMW_match pfx goproxyHandler _ hp hm]
      rfl

/-- Claim C3 witness: prefix "/mod", timeout 3, matching path "/mod/a". -/
theorem matching_path_stripped_once_w :
    ∃ rest c2,
      "/mod".data ++ rest = "/mod/a".data
      ∧ Event.engineInvoked rest c2
          ∈ (buildHandler "/mod".data 3 ⟨"/mod/a".data, Ctx.background⟩).1
      ∧ (buildHandler "/mod".data 3 ⟨"/mod/a".data, Ctx.background⟩).2
          = Response.engine rest c2 :=
  matching_path_stripped_once "/mod".data 3 "/mod/a".data Ctx.background
    (by decide) (by decide)

/-- Claim C4: with a non-positive fetch timeout the deadline stage is a
no-op pass-through: no deadline context is created, no cancellation runs,
and the engine (when reached) observes the request's original context
unchanged. -/
theorem nonpositive_timeout_passthrough (pfx : Str) (t : Int) (req : Request)
    (ht : ¬ 0 < t) :
    (∀ e ∈ (buildHandler pfx t req).1,
        isDeadlineEvent e = false ∧ e ≠ Event.cancelCalled)
    ∧ (∀ p c2, Event.engineInvoked p c2 ∈ (buildHandler pfx t req).1
        → c2 = req.ctx) := by
  by_cases hp : pfx = []
  · subst hp
    rw [buildHandler_nopfx_nonpos t req ht]
    constructor
    · intro e he
      simp only [goproxyHandler, List.mem_cons, List.not_mem_nil,
        or_false] at he
      subst he
      exact ⟨rfl, by simp⟩
    · intro p c2 hmem
      simp only [goproxyHandler, List.mem_cons, List.not_mem_nil, or_false,
        Event.engineInvoked.injEq] at hmem
      exact hmem.2
  · rw [buildHandler_nonpos pfx t req hp ht]
    cases hm : hasPfx req.path pfx with
    | false =>
      rw [stripPfxMW_reject pfx goproxyHandler req hp hm]
      constructor
      · intro e he
        simp only [List.mem_cons, List.not_mem_nil, or_false] at he
        rcases he with rfl | rfl <;> exact ⟨rfl, by simp⟩
      · intro p c2 hmem
        simp at hmem
    | true =>
      rw [stripPfxMW_match pfx goproxyHandler req hp hm]
      constructor
      · intro e he
        simp only [goproxyHandler, List.mem_cons, List.not_mem_nil,
          or_false] at he
        rcases he with rfl | rfl <;> exact ⟨rfl, by simp⟩
      · intro p c2 hmem
        simp only [goproxyHandler, List.mem_cons, List.not_mem_nil, or_false,
          Event.engineInvoked.injEq] at hmem
        rcases hmem with h | ⟨h1, h2⟩
        · exact Event.noConfusion h
        · exact h2

/-- Claim C4 witness: prefix "/q", timeout 0, matching path "/q/m": the
engine runs under the original background context and nothing deadline
related happens. -/
theorem nonpositive_timeout_passthrough_w :
    (∀ e ∈ (buildHandler "/q".data 0 ⟨"/q/m".data, Ctx.background⟩).1,
        isDeadlineEvent e = false ∧ e ≠ Event.cancelCalled)
    ∧ (∀ p c2,
        Event.engineInvoked p c2
          ∈ (buildHandler "/q".data 0 ⟨"/q/m".data, Ctx.background⟩).1
        → c2 = Ctx.background) :=
  nonpositive_timeout_passthrough "/q".data 0 ⟨"/q/m".data, Ctx.background⟩
    (by decide)

/-- Claim C5: with a positive fetch timeout, every request runs under a
context derived from (not replacing) its own context with the timeout
bound, and the cancellation function runs after the inner handler
returns on every exit path: the trace is the deadline creation, then the
inner stage events (which contain no deadline or cancel event and whose
engine invocations, if any, carry the derived context), then the cancel. -/
theorem positive_timeout_ctx_derived_cancelled (pfx : Str) (t : Int)
    (req : Request) (ht : 0 < t) :
    ∃ inner,
      (buildHandler pfx t req).1
        = Event.deadlineCreated t :: (inner ++ [Event.cancelCalled])
      ∧ (∀ e ∈ inner, isDeadlineEvent e = false ∧ e ≠ Event.cancelCalled)
      ∧ (∀ p c2, Event.engineInvoked p c2 ∈ inner
          → c2 = Ctx.withTimeout req.ctx t) := by
  by_cases hp : pfx = []
  · subst hp
    rw [buildHandler_nopfx_pos t req ht]
    refine ⟨_, rfl, ?_, ?_⟩
    · intro e he
      simp only [goproxyHandler, List.mem_cons, List.not_mem_nil,
        or_false] at he
      subst he
      exact ⟨rfl, by simp⟩
    · intro p c2 hmem
      simp only [goproxyHandler, List.mem_cons, List.not_mem_nil, or_false,
        Event.engineInvoked.injEq] at hmem
      exact hmem.2
  · rw [buildHandler_pos pfx t req hp ht]
    cases hm : hasPfx req.path pfx with
    | false =>
      rw [stripPfxMW_reject pfx goproxyHandler
        { req with ctx := Ctx.withTimeout req.ctx t } hp hm]
      refine ⟨_, rfl, ?_, ?_⟩
      · intro e he
        simp only [List.mem_cons, List.not_mem_nil, or_false] at he
        rcases he with rfl | rfl <;> exact ⟨rfl, by simp⟩
      · intro p c2 hmem
        simp at hmem
    | true =>
      rw [stripPfxMW_match pfx goproxyHandler
        { req with ctx := Ctx.withTimeout req.ctx t } hp hm]
      refine ⟨_, rfl, ?_, ?_⟩
      · intro e he
        simp only [goproxyHandler, List.mem_cons, List.not_mem_nil,
          or_false] at he
        rcases he with rfl | rfl <;> exact ⟨rfl, by simp⟩
      · intro p c2 hmem
        simp only [goproxyHandler, List.mem_cons, List.not_mem_nil, or_false,
          Event.engineInvoked.injEq] at hmem
        rcases hmem with h | ⟨h1, h2⟩
        · exact Event.noConfusion h
        · exact h2

theorem fromSlash_ne_nil (os : GoOS) (name : Str) (h : name ≠ []) :
    fromSlash os name ≠ [] := by
  unfold fromSlash
  split
  · exact h
  · simp [h]

theorem fsOpen_windows_eq (fs : Str → Except String String) (name : Str)
    (h : name ≠ []) :
    fsOpen GoOS.windows fs name
      = (if (volumeName ((fromSlash GoOS.windows name).drop 1)).isEmpty
            || hasPfx (volumeName ((fromSlash GoOS.windows name).drop 1))
                 "\\\\".data
         then OpenResult.invalidPath "file URL missing drive letter"
         else openTail GoOS.windows fs
                ((fromSlash GoOS.windows name).drop 1)) := by
  have hne : fromSlash GoOS.windows name ≠ [] := fromSlash_ne_nil _ _ h
  simp [fsOpen, separator, hne]

theorem openTail_cases (os : GoOS) (fs : Str → Except String String)
    (name : Str) :
    (isAbs os name = false
      ∧ openTail os fs name = OpenResult.invalidPath "path is not absolute")
    ∨ (isAbs os name = true
      ∧ ((∃ f, fs name = Except.ok f ∧ openTail os fs name = OpenResult.ok f)
         ∨ (∃ e, fs name = Except.error e
              ∧ openTail os fs name = OpenResult.fsError e))) := by
  cases habs : isAbs os name with
  | false => exact Or.inl ⟨rfl, by simp [openTail, habs]⟩
  | true =>
    refine Or.inr ⟨rfl, ?_⟩
    cases hfs : fs name with
    | ok f => exact Or.inl ⟨f, rfl, by simp [openTail, habs, hfs]⟩
    | error e => exact Or.inr ⟨e, rfl, by simp [openTail, habs, hfs]⟩

theorem openTail_ne_missing_drive (os : GoOS)
    (fs : Str → Except String String) (name : Str) :
    openTail os fs name
      ≠ OpenResult.invalidPath "file URL missing drive letter" := by
  rcases openTail_cases os fs name with ⟨_, heq⟩ | ⟨_, ⟨f, _, heq⟩ | ⟨e, _, heq⟩⟩
    <;> rw [heq]
  · intro hc
    rw [OpenResult.invalidPath.injEq] at hc
    exact absurd hc (by decide)
  · exact fun hc => OpenResult.noConfusion hc
  · exact fun hc => OpenResult.noConfusion hc

/-! ### Claims about the file-URL resolver -/

/-- Claim C6: on the backslash-separator platform, for every non-empty
file-scheme path the resolver converts separators, strips the leading
byte, and fails with "file URL missing drive letter" exactly when the
remaining path's volume-name component is empty or UNC-style
(backslash-backslash-prefixed); in that case the outcome is the same for
every filesystem, so no open is attempted. -/
theorem windows_missing_drive_letter_iff (fs : Str → Except String String)
    (name : Str) (h : name ≠ []) :
    (fsOpen GoOS.windows fs name
        = OpenResult.invalidPath "file URL missing drive letter"
      ↔ (volumeName ((fromSlash GoOS.windows name).drop 1) = []
         ∨ hasPfx (volumeName ((fromSlash GoOS.windows name).drop 1))
             "\\\\".data = true))
    ∧ ((volumeName ((fromSlash GoOS.windows name).drop 1) = []
         ∨ hasPfx (volumeName ((fromSlash GoOS.windows name).drop 1))
             "\\\\".data = true)
       → ∀ fs2, fsOpen GoOS.windows fs2 name
           = OpenResult.invalidPath "file URL missing drive letter") := by
  have key : ∀ fs2 : Str → Except String String,
      (volumeName ((fromSlash GoOS.windows name).drop 1) = []
        ∨ hasPfx (volumeName ((fromSlash GoOS.windows name).drop 1))
            "\\\\".data = true)
      → fsOpen GoOS.windows fs2 name
          = OpenResult.invalidPath "file URL missing drive letter" := by
    intro fs2 hcond
    rw [fsOpen_windows_eq fs2 name h]
    have hb : ((volumeName ((fromSlash GoOS.windows name).drop 1)).isEmpty
        || hasPfx (volumeName ((fromSlash GoOS.windows name).drop 1))
             "\\\\".data) = true := by
      rcases hcond with hc | hc
      · rw [List.isEmpty_iff.mpr hc, Bool.true_or]
      · rw [hc, Bool.or_true]
    rw [hb, if_pos rfl]
  constructor
  · constructor
    · intro heq
      by_contra hcond
      push_neg at hcond
      obtain ⟨hc1, hc2⟩ := hcond
      rw [fsOpen_windows_eq fs name h] at heq
      have hb1 : (volumeName ((fromSlash GoOS.windows name).drop 1)).isEmpty
          = false := by
        cases hvE : (volumeName ((fromSlash GoOS.windows name).drop 1)).isEmpty
        · rfl
        · exact absurd (List.isEmpty_iff.mp hvE) hc1
      have hb2 : hasPfx (volumeName ((fromSlash GoOS.windows name).drop 1))
          "\\\\".data = false := by
        cases hvP : hasPfx (volumeName ((fromSlash GoOS.windows name).drop 1))
            "\\\\".data
        · rfl
        · exact absurd hvP hc2
      rw [hb1, hb2] at heq
      simp only [Bool.or_false, Bool.false_eq_true, if_false] at heq
      exact openTail_ne_missing_drive _ _ _ heq
    · exact fun hcond => key fs hcond
  · exact fun hcond fs2 => key fs2 hcond

/-- Claim C6 witness: the drive-letter-less path "/mods/example" is
rejected with the missing-drive-letter error. -/
theorem windows_missing_drive_letter_iff_w :
    fsOpen GoOS.windows (fun n => Except.ok (String.mk n))
        "/mods/example".data
      = OpenResult.invalidPath "file URL missing drive letter" :=
  ((windows_missing_drive_letter_iff (fun n => Except.ok (String.mk n))
      "/mods/example".data (by decide)).1).mpr (by decide)

/-- Claim C7: on every platform, once past the platform-specific
drive-letter step, a translated path that is not filesystem-absolute is
rejected with "path is not absolute" independently of the filesystem
(no open is attempted), and an absolute one is handed to the open
primitive, whose outcome - the handle on success, the underlying error
on failure - is returned unmasked. -/
theorem abs_check_and_error_propagation (os : GoOS)
    (fs : Str → Except String String) (name : Str)
    (hwin : os = GoOS.windows →
      name ≠ []
      ∧ (volumeName ((fromSlash os name).drop 1)).isEmpty = false
      ∧ hasPfx (volumeName ((fromSlash os name).drop 1)) "\\\\".data
          = false) :
    (isAbs os (translated os name) = false →
      ∀ fs2, fsOpen os fs2 name
        = OpenResult.invalidPath "path is not absolute")
    ∧ (isAbs os (translated os name) = true →
      fsOpen os fs name
        = (match fs (translated os name) with
           | Except.ok f => OpenResult.ok f
           | Except.error e => OpenResult.fsError e)) := by
  have hopen : ∀ fs2 : Str → Except String String,
      fsOpen os fs2 name = openTail os fs2 (translated os name) := by
    intro fs2
    cases os with
    | windows =>
      obtain ⟨hne, hv1, hv2⟩ := hwin rfl
      rw [fsOpen_windows_eq fs2 name hne]
      rw [hv1, hv2, Bool.or_false]
      simp only [Bool.false_eq_true, if_false]
      rfl
    | unix =>
      rfl
  constructor
  · intro habs fs2
    rw [hopen fs2, openTail]
    simp [habs]
  · intro habs
    rw [hopen fs, openTail]
    simp [habs]

/-- Claim C7 witness: on the backslash platform, "/C:/mods/example"
passes the drive-letter step, is absolute after translation, and a
permission error from the open primitive is propagated unmasked. -/
theorem abs_check_and_error_propagation_w :
    fsOpen GoOS.windows (fun _ => Except.error "permission denied")
        "/C:/mods/example".data
      = OpenResult.fsError "permission denied" :=
  (abs_check_and_error_propagation GoOS.windows
      (fun _ => Except.error "permission denied") "/C:/mods/example".data
      (fun _ => ⟨by decide, by decide, by decide⟩)).2 (by decide)

/-- Claim C10: on the backslash-separator platform the resolver slices
off the first byte unconditionally before any validation, so on the
empty input the slice index is out of bounds (no InvalidPathError is
returned there), and the out-of-bounds outcome is impossible exactly
under the precondition that the input is non-empty. -/
theorem empty_name_slice_oob (fs : Str → Except String String) :
    fsOpen GoOS.windows fs [] = OpenResult.sliceOutOfRange
    ∧ (∀ msg, fsOpen GoOS.windows fs [] ≠ OpenResult.invalidPath msg)
    ∧ (∀ name, name ≠ []
        → fsOpen GoOS.windows fs name ≠ OpenResult.sliceOutOfRange) := by
  refine ⟨rfl, ?_, ?_⟩
  · intro msg hc
    exact OpenResult.noConfusion (rfl.symm.trans hc)
  · intro name hname
    rw [fsOpen_windows_eq fs name hname]
    split
    · exact fun hc => OpenResult.noConfusion hc
    · rcases openTail_cases GoOS.windows fs
          ((fromSlash GoOS.windows name).drop 1) with
        ⟨_, heq⟩ | ⟨_, ⟨f, _, heq⟩ | ⟨e, _, heq⟩⟩
        <;> rw [heq]
        <;> exact fun hc => OpenResult.noConfusion hc

/-- Claim C10 witness: the empty input hits the out-of-bounds slice
while the non-empty input "/C:/m" does not. -/
theorem empty_name_slice_oob_w :
    fsOpen GoOS.windows (fun n => Except.ok (String.mk n)) []
        = OpenResult.sliceOutOfRange
    ∧ fsOpen GoOS.windows (fun n => Except.ok (String.mk n)) "/C:/m".data
        ≠ OpenResult.sliceOutOfRange :=
  ⟨(empty_name_slice_oob (fun n => Except.ok (String.mk n))).1,
    (empty_name_slice_oob (fun n => Except.ok (String.mk n))).2.2
      "/C:/m".data (by decide)⟩

/-- Claim C5 witness: prefix "/r", timeout 9, matching path "/r/m". -/
theorem positive_timeout_ctx_derived_cancelled_w :
    ∃ inner,
      (buildHandler "/r".data 9 ⟨"/r/m".data, Ctx.background⟩).1
        = Event.deadlineCreated 9 :: (inner ++ [Event.cancelCalled])
      ∧ (∀ e ∈ inner, isDeadlineEvent e = false ∧ e ≠ Event.cancelCalled)
      ∧ (∀ p c2, Event.engineInvoked p c2 ∈ inner
          → c2 = Ctx.withTimeout Ctx.background 9) :=
  positive_timeout_ctx_derived_cancelled "/r".data 9 ⟨"/r/m".data, Ctx.background⟩
    (by decide)

/-! ### Claims about the server assembly -/

/-- Claim C8: the server serves in TLS mode iff both the certificate
path and the key path are non-empty; any other configuration serves
plain HTTP, and a partial TLS configuration is not reported as a startup
error: the serve attempt is the first action taken, with nothing logged
before it. -/
theorem tls_mode_iff_cert_and_key (cert key : Str)
    (serveResult : ServeMode → Option GoError) :
    (serveMode cert key = ServeMode.tls ↔ (cert ≠ [] ∧ key ≠ []))
    ∧ ((cert = [] ∨ key = []) → serveMode cert key = ServeMode.plain)
    ∧ (runServer cert key serveResult).head?
        = some (Action.serveAttempt (serveMode cert key)) := by
  have hmode : serveMode cert key = ServeMode.tls ↔ (cert ≠ [] ∧ key ≠ []) := by
    unfold serveMode
    cases hc : cert.isEmpty with
    | true =>
      have hce : cert = [] := List.isEmpty_iff.mp hc
      simp [hce]
    | false =>
      have hcne : cert ≠ [] := by
        intro h0
        rw [h0] at hc
        simp at hc
      cases hk : key.isEmpty with
      | true =>
        have hke : key = [] := List.isEmpty_iff.mp hk
        simp [hke]
      | false =>
        have hkne : key ≠ [] := by
          intro h0
          rw [h0] at hk
          simp at hk
        simp [hcne, hkne]
  refine ⟨hmode, ?_, rfl⟩
  intro hor
  cases hsm : serveMode cert key with
  | plain => rfl
  | tls =>
    obtain ⟨hc, hk⟩ := hmode.mp hsm
    rcases hor with h0 | h0
    · exact absurd h0 hc
    · exact absurd h0 hk

/-- Claim C8 witness: with only a certificate path configured (key path
empty) the server serves plain HTTP rather than failing at startup. -/
theorem tls_mode_iff_cert_and_key_w :
    serveMode "cert.pem".data [] = ServeMode.plain :=
  (tls_mode_iff_cert_and_key "cert.pem".data [] (fun _ => none)).2.1
    (Or.inr rfl)

/-- Claim C9: when the serve loop returns, an intentional-shutdown error
(http.ErrServerClosed) is not reported and neither is a nil error; any
other error is logged exactly once; and the whole run makes exactly one
serve attempt, so the process terminates without retrying or
restarting. -/
theorem serve_error_reporting (cert key : Str)
    (serveResult : ServeMode → Option GoError) :
    afterServe (some GoError.errServerClosed) = []
    ∧ afterServe none = []
    ∧ (∀ msg, afterServe (some (GoError.other msg))
        = [Action.logError (GoError.other msg)])
    ∧ (runServer cert key serveResult).countP isServeAttempt = 1 := by
  refine ⟨rfl, rfl, fun msg => rfl, ?_⟩
  unfold runServer
  rw [List.countP_cons]
  have h0 : (afterServe (serveResult (serveMode cert key))).countP
      isServeAttempt = 0 := by
    cases hsr : serveResult (serveMode cert key) with
    | none => rfl
    | some e =>
      cases e with
      | errServerClosed => rfl
      | other msg => rfl
  rw [h0]
  rfl

end Goproxy
